import Mathlib

/-!
Verification development for the Gomoku rules engine (`gomoku_rules.cpp`,
board size 6) and the minimax AI engine (`gomoku_ai.cpp`, board size 19).
Boards are modelled as total functions `Int → Int → Nat`; only the cells with
both coordinates inside the board are ever meaningful, mirroring the C++
arrays which are only indexed after an explicit bounds check.  Cell values
follow the C++ `Player` enum: 0 = empty, 1 = black, 2 = white.
-/

/-- A board is a total assignment of cell values to integer coordinates. -/
def Board : Type := Int → Int → Nat

/-- Functional update of one cell, modelling `board[row][col] = v`. -/
def setCell (b : Board) (row col : Int) (v : Nat) : Board :=
  fun r c => if r = row ∧ c = col then v else b r c

/-- Build a concrete board from a list of `(row, col, value)` stones. -/
def mkBoard : List (Int × Int × Nat) → Board
  | [] => fun _ _ => 0
  | s :: rest => setCell (mkBoard rest) s.1 s.2.1 s.2.2

namespace GomokuRules

def BOARD_SIZE : Int := 6

def NONE : Nat := 0
def BLACK : Nat := 1
def WHITE : Nat := 2

structure Point where
  r : Int
  c : Int
deriving DecidableEq

structure Direction where
  r : Int
  c : Int
deriving DecidableEq

/-- The 4 alignment axes checked by the rules engine. -/
def AXES : List Direction := [⟨0, 1⟩, ⟨1, 0⟩, ⟨1, 1⟩, ⟨1, -1⟩]

/-- The 8 capture directions around a stone. -/
def CAPTURE_DIRECTIONS : List Direction :=
  [⟨0, 1⟩, ⟨0, -1⟩, ⟨1, 0⟩, ⟨-1, 0⟩, ⟨1, 1⟩, ⟨-1, -1⟩, ⟨1, -1⟩, ⟨-1, 1⟩]

/-- `(player == BLACK) ? WHITE : BLACK`, the opponent computation used
throughout the C++ source. -/
def opponentOf (player : Nat) : Nat := if player == BLACK then WHITE else BLACK

def isOnBoard (row col : Int) : Bool :=
  decide (0 ≤ row ∧ row < BOARD_SIZE ∧ 0 ≤ col ∧ col < BOARD_SIZE)

def isEmptyCell (b : Board) (row col : Int) : Bool :=
  isOnBoard row col && (b row col == NONE)

def getPlayerAt (b : Board) (row col : Int) : Nat :=
  if isOnBoard row col then b row col else NONE

inductive MoveStatus where
  | VALID
  | INVALID_BOUNDS
  | INVALID_OCCUPIED
  | INVALID_SUICIDE
  | INVALID_DOUBLE_THREE
deriving DecidableEq

/-- The contribution of one capture direction in `GomokuRules::checkCaptures`:
the two opponent stones at offsets 1 and 2, provided the three cells at
offsets 1, 2, 3 are on the board and match `[opponent][opponent][player]`. -/
def capturesInDir (b : Board) (row col : Int) (player opponent : Nat)
    (dir : Direction) : List Point :=
  if isOnBoard (row + dir.r) (col + dir.c) &&
      isOnBoard (row + 2 * dir.r) (col + 2 * dir.c) &&
      isOnBoard (row + 3 * dir.r) (col + 3 * dir.c) &&
      getPlayerAt b (row + dir.r) (col + dir.c) == opponent &&
      getPlayerAt b (row + 2 * dir.r) (col + 2 * dir.c) == opponent &&
      getPlayerAt b (row + 3 * dir.r) (col + 3 * dir.c) == player then
    [⟨row + dir.r, col + dir.c⟩, ⟨row + 2 * dir.r, col + 2 * dir.c⟩]
  else
    []

/-- `GomokuRules::checkCaptures`: the captured stones over the 8 directions,
in direction order, exactly as written into `capturedStonesOut`. -/
def checkCaptures (b : Board) (row col : Int) (player : Nat) : List Point :=
  (CAPTURE_DIRECTIONS.map (capturesInDir b row col player (opponentOf player))).flatten

/-- `GomokuRules::applyMove`: place the stone, compute the captures on the
resulting board, remove the captured stones.  Returns the final board and the
captured-stone list (`capturedStonesOut` plus its count). -/
def applyMove (b : Board) (row col : Int) (player : Nat) : Board × List Point :=
  ((checkCaptures (setCell b row col player) row col player).foldl
      (fun bb p => setCell bb p.r p.c NONE) (setCell b row col player),
   checkCaptures (setCell b row col player) row col player)

/-- `GomokuRules::undoMove`: restore the captured stones to the opponent, then
clear the played cell. -/
def undoMove (b : Board) (row col : Int) (player : Nat) (caps : List Point) : Board :=
  setCell (caps.foldl (fun bb p => setCell bb p.r p.c (opponentOf player)) b) row col NONE

/-- `GomokuRules::getLinePattern`: the 11-character window from offset -5 to
+5 along `dir`, with `P` for the player, `_` for empty, `O` for the opponent
or the board edge. -/
def getLinePattern (b : Board) (row col : Int) (dir : Direction) (player : Nat) :
    List Char :=
  (List.range 11).map fun j =>
    if !isOnBoard (row + ((j : Int) - 5) * dir.r) (col + ((j : Int) - 5) * dir.c) then 'O'
    else if getPlayerAt b (row + ((j : Int) - 5) * dir.r) (col + ((j : Int) - 5) * dir.c)
        == player then 'P'
    else if getPlayerAt b (row + ((j : Int) - 5) * dir.r) (col + ((j : Int) - 5) * dir.c)
        == NONE then '_'
    else 'O'

def listStartsWith : List Char → List Char → Bool
  | [], _ => true
  | _ :: _, [] => false
  | p :: ps, x :: xs => p == x && listStartsWith ps xs

/-- Substring search, modelling `std::string::find(...) != npos`. -/
def listFind (pat : List Char) : List Char → Bool
  | [] => listStartsWith pat []
  | x :: xs => listStartsWith pat (x :: xs) || listFind pat xs

def freeThreePatterns : List (List Char) :=
  ["__PPP_".toList, "_PPP__".toList, "_P_PP_".toList, "_PP_P_".toList]

/-- `GomokuRules::isFreeThree`: one of the four free-three templates occurs in
the 11-cell window along `dir`. -/
def isFreeThree (b : Board) (row col : Int) (dir : Direction) (player : Nat) : Bool :=
  freeThreePatterns.any fun pat => listFind pat (getLinePattern b row col dir player)

/-- `GomokuRules::checkDoubleThree`: at least two of the four axes carry a
free-three through the (already placed) stone. -/
def checkDoubleThree (b : Board) (row col : Int) (player : Nat) : Bool :=
  decide (2 ≤ (AXES.countP fun dir => isFreeThree b row col dir player))

/-- `GomokuRules::isPairSurrounded`: the strict pattern `[O P P O]` around the
allied pair `(p1, p2)`. -/
def isPairSurrounded (b : Board) (p1 p2 : Point) (opponent : Nat) : Bool :=
  getPlayerAt b (p1.r - (p2.r - p1.r)) (p1.c - (p2.c - p1.c)) == opponent &&
    getPlayerAt b (p2.r + (p2.r - p1.r)) (p2.c + (p2.c - p1.c)) == opponent

/-- The `scanNeighborPairs` template helper: try the predicate on every
allied pair formed by `(row, col)` and an on-board neighbour. -/
def scanNeighborPairs (b : Board) (row col : Int) (subjectPlayer : Nat)
    (predicate : Board → Point → Point → Nat → Bool) : Bool :=
  CAPTURE_DIRECTIONS.any fun dir =>
    isOnBoard (row + dir.r) (col + dir.c) &&
      getPlayerAt b (row + dir.r) (col + dir.c) == subjectPlayer &&
      predicate b ⟨row, col⟩ ⟨row + dir.r, col + dir.c⟩ (opponentOf subjectPlayer)

def isSuicideMove (b : Board) (row col : Int) (player : Nat) : Bool :=
  scanNeighborPairs b row col player isPairSurrounded

/-- `GomokuRules::validateMove`, tracking the board state at function exit in
the second component (the C++ function mutates its board argument through the
RAII `ScopedMove` and restores it in the destructor). -/
def validateMoveFull (b : Board) (row col : Int) (player : Nat) : MoveStatus × Board :=
  if !isOnBoard row col then (.INVALID_BOUNDS, b)
  else if b row col ≠ NONE then (.INVALID_OCCUPIED, b)
  else
    ((if (applyMove b row col player).2.length == 0 &&
          isSuicideMove (applyMove b row col player).1 row col player then
        MoveStatus.INVALID_SUICIDE
      else if (applyMove b row col player).2.length == 0 &&
          checkDoubleThree (applyMove b row col player).1 row col player then
        MoveStatus.INVALID_DOUBLE_THREE
      else MoveStatus.VALID),
     undoMove (applyMove b row col player).1 row col player (applyMove b row col player).2)

def validateMove (b : Board) (row col : Int) (player : Nat) : MoveStatus :=
  (validateMoveFull b row col player).1

/-- `GomokuRules::tryCaptureAt`: the opponent can legally play at `(r, c)`. -/
def tryCaptureAt (b : Board) (r c : Int) (opponent : Nat) : Bool :=
  isEmptyCell b r c && decide (validateMove b r c opponent = .VALID)

/-- `GomokuRules::isPairSandwiched`: `[O P P _]` or `[_ P P O]` with a legal
opponent completion at the empty flank. -/
def isPairSandwiched (b : Board) (p1 p2 : Point) (opponent : Nat) : Bool :=
  (getPlayerAt b (p1.r - (p2.r - p1.r)) (p1.c - (p2.c - p1.c)) == opponent &&
      tryCaptureAt b (p2.r + (p2.r - p1.r)) (p2.c + (p2.c - p1.c)) opponent) ||
    (getPlayerAt b (p2.r + (p2.r - p1.r)) (p2.c + (p2.c - p1.c)) == opponent &&
      tryCaptureAt b (p1.r - (p2.r - p1.r)) (p1.c - (p2.c - p1.c)) opponent)

/-- `GomokuRules::isStoneCapturable`: the stone at `(row, col)` belongs to the
player opposing `opponent` and sits in some capturable pair. -/
def isStoneCapturable (b : Board) (row col : Int) (opponent : Nat) : Bool :=
  scanNeighborPairs b row col (opponentOf opponent) isPairSandwiched

/-- The run-length loop of `isLineBreakableByCapture`: longest run of `false`
(not removed) entries, given the current run and the maximum so far. -/
def maxRunAux : List Bool → Nat → Nat → Nat
  | [], currentRun, maxRun => max maxRun currentRun
  | removed :: rest, currentRun, maxRun =>
    if removed then maxRunAux rest 0 (max maxRun currentRun)
    else maxRunAux rest (currentRun + 1) maxRun

/-- `GomokuRules::isLineBreakableByCapture`: mark every stone of the line that
is capturable, and test whether the longest surviving contiguous segment is
shorter than 5. -/
def isLineBreakableByCapture (b : Board) (line : List Point) (opponent : Nat) : Bool :=
  if line.length < 5 then false
  else
    decide (maxRunAux (line.map fun p => isStoneCapturable b p.r p.c opponent) 0 0 < 5)

/-- The `while (getPlayerAt(...) == player)` scan of `checkWin`, with explicit
fuel.  On the 6×6 board a run can never exceed 6 cells, so fuel 7 is enough
for every scan the engine performs. -/
def scanDir (b : Board) (player : Nat) : Nat → Int → Int → Direction → List Point
  | 0, _, _, _ => []
  | fuel + 1, r, c, dir =>
    if getPlayerAt b r c == player then
      ⟨r, c⟩ :: scanDir b player fuel (r + dir.r) (c + dir.c) dir
    else []

/-- `GomokuRules::checkWin`: capture win at 10 stones, otherwise some axis
holds a contiguous run of at least 5 through `(row, col)` that is not
breakable by capture. -/
def checkWin (b : Board) (row col : Int) (player : Nat) (capturedStones : Int) : Bool :=
  if 10 ≤ capturedStones then true
  else
    AXES.any fun dir =>
      decide (5 ≤ ((scanDir b player 7 (row - dir.r) (col - dir.c) ⟨-dir.r, -dir.c⟩).reverse
          ++ ⟨row, col⟩ :: scanDir b player 7 (row + dir.r) (col + dir.c) dir).length) &&
        !isLineBreakableByCapture b
          ((scanDir b player 7 (row - dir.r) (col - dir.c) ⟨-dir.r, -dir.c⟩).reverse
            ++ ⟨row, col⟩ :: scanDir b player 7 (row + dir.r) (col + dir.c) dir)
          (opponentOf player)

/-- All 36 cells of the 6×6 board, used to quantify over candidate opponent
moves in decidable statements. -/
def allCells : List (Int × Int) :=
  ((List.range 6).map fun r =>
    (List.range 6).map fun c => ((r : Int), (c : Int))).flatten

/-- Modelled from the claim wording (not from the source): there exists one
single legal opponent capturing move whose captured stones, removed from
`line`, leave every remaining contiguous segment of `line` shorter than 5. -/
def existsSingleBreakingCapture (b : Board) (line : List Point) (opponent : Nat) : Bool :=
  allCells.any fun cell =>
    isEmptyCell b cell.1 cell.2 &&
      decide (validateMove b cell.1 cell.2 opponent = .VALID) &&
      !(applyMove b cell.1 cell.2 opponent).2.isEmpty &&
      decide (maxRunAux
        (line.map fun p => decide (p ∈ (applyMove b cell.1 cell.2 opponent).2)) 0 0 < 5)

end GomokuRules

namespace GomokuAI

def BOARD_SIZE : Int := 19

def EMPTY : Nat := 0
def BLACK : Nat := 1
def WHITE : Nat := 2

def DX : List Int := [0, 1, 1, 1, 0, -1, -1, -1]
def DY : List Int := [1, 1, 0, -1, -1, -1, 0, 1]

def onBoard (r c : Int) : Bool :=
  decide (0 ≤ r ∧ r < BOARD_SIZE ∧ 0 ≤ c ∧ c < BOARD_SIZE)

/-- The `MoveHistory` record of `gomoku_ai.cpp`.  The `capturedStones` field
mirrors the C++ buffer that is declared but never written. -/
structure MoveHistory where
  row : Int := -1
  col : Int := -1
  player : Nat := 0
  capturedStones : List (Int × Int) := []
  numCaptured : Int := 0
  capturedByBlack : Int := 0
  capturedByWhite : Int := 0

/-- The mutable state of one `GomokuAI` instance: board, capture counters of
`GameState`, and the undo stack (head = top). -/
structure AIState where
  board : Board
  aiPlayer : Nat := 1
  humanPlayer : Nat := 2
  capturedByBlack : Int := 0
  capturedByWhite : Int := 0
  moveHistory : List MoveHistory := []

/-- `GomokuAI::saveState`: push a fresh history record carrying only the
capture counters (row/col stay at their defaults `-1`). -/
def saveState (s : AIState) : AIState :=
  { s with moveHistory :=
      { capturedByBlack := s.capturedByBlack,
        capturedByWhite := s.capturedByWhite } :: s.moveHistory }

/-- `GomokuAI::checkAndPerformCaptures`: for each of the 8 directions, remove
a matched `[player][opp][opp][player]` pair and bump the mover's counter.
Returns the updated state and the total number of stones captured. -/
def checkAndPerformCaptures (s : AIState) (row col : Int) (player : Nat) :
    AIState × Int :=
  let opponent := if player == BLACK then WHITE else BLACK
  (DX.zip DY).foldl
    (fun acc d =>
      let st := acc.1
      let r1 := row + d.1
      let c1 := col + d.2
      let r2 := row + 2 * d.1
      let c2 := col + 2 * d.2
      let r3 := row + 3 * d.1
      let c3 := col + 3 * d.2
      if onBoard r1 c1 && onBoard r2 c2 && onBoard r3 c3 &&
          st.board r1 c1 == opponent && st.board r2 c2 == opponent &&
          st.board r3 c3 == player then
        let b2 := setCell (setCell st.board r1 c1 EMPTY) r2 c2 EMPTY
        let st2 :=
          if player == BLACK then
            { st with board := b2, capturedByBlack := st.capturedByBlack + 2 }
          else
            { st with board := b2, capturedByWhite := st.capturedByWhite + 2 }
        (st2, acc.2 + 2)
      else acc)
    (s, 0)

/-- `GomokuAI::makeMoveWithCaptures`: record the pre-move counters, place the
stone, perform the captures, push the history record.  Note that the record's
`capturedStones` list is left empty, exactly as in the C++ source. -/
def makeMoveWithCaptures (s : AIState) (row col : Int) (player : Nat) : AIState :=
  let s1 := { s with board := setCell s.board row col player }
  let res := checkAndPerformCaptures s1 row col player
  let history : MoveHistory :=
    { row := row, col := col, player := player, numCaptured := res.2,
      capturedByBlack := s.capturedByBlack, capturedByWhite := s.capturedByWhite }
  { res.1 with moveHistory := history :: res.1.moveHistory }

/-- `GomokuAI::undoMove`: pop one record, restore the counters when the move
captured, clear the placed cell.  Captured stones are never restored to the
board. -/
def undoMove (s : AIState) : AIState :=
  match s.moveHistory with
  | [] => s
  | history :: rest =>
    let s1 := { s with moveHistory := rest }
    let s2 :=
      if 0 < history.numCaptured then
        { s1 with capturedByBlack := history.capturedByBlack,
                  capturedByWhite := history.capturedByWhite }
      else s1
    if 0 ≤ history.row ∧ 0 ≤ history.col then
      { s2 with board := setCell s2.board history.row history.col EMPTY }
    else s2

end GomokuAI

namespace GomokuRules

/-- Counterexample board for the claimed single-capture breaking condition:
a black run of six on row 2, whose two end stones (only) sit in capturable
vertical pairs. -/
def cexC1Board : Board := mkBoard
  [(2, 0, 1), (2, 1, 1), (2, 2, 1), (2, 3, 1), (2, 4, 1), (2, 5, 1),
   (1, 0, 1), (1, 5, 1), (3, 0, 2), (3, 5, 2)]

/-- The black run of six on row 2 of `cexC1Board`. -/
def c1Line : List Point :=
  [⟨2, 0⟩, ⟨2, 1⟩, ⟨2, 2⟩, ⟨2, 3⟩, ⟨2, 4⟩, ⟨2, 5⟩]

/-- Witness board for the amended win condition: an unbreakable black five. -/
def witC1Board : Board :=
  mkBoard [(2, 0, 1), (2, 1, 1), (2, 2, 1), (2, 3, 1), (2, 4, 1)]

/-- Witness board for the suicide rule: playing black at (2,2) completes the
pair (2,2)-(2,3) flanked by white at (2,1) and (2,4), capturing nothing. -/
def witC3Board : Board := mkBoard [(2, 3, 1), (2, 1, 2), (2, 4, 2)]

/-- Counterexample board for the double-three claim: playing black at (2,2)
creates free-threes on the row and the column, and simultaneously completes
the pair (2,2)-(3,3) flanked by white at (1,1) and (4,4). -/
def cexC4Board : Board :=
  mkBoard [(2, 3, 1), (2, 4, 1), (3, 2, 1), (4, 2, 1), (3, 3, 1), (1, 1, 2), (4, 4, 2)]

/-- Witness board for the amended double-three rule: playing black at (2,2)
creates exactly two free-threes and nothing else. -/
def witC4Board : Board := mkBoard [(2, 3, 1), (2, 4, 1), (3, 2, 1), (4, 2, 1)]

/-- Witness board pair for out-of-range independence: `oobBoardA` is all
empty, `oobBoardB` agrees on board cells but is junk outside. -/
def oobBoardA : Board := fun _ _ => 0

def oobBoardB : Board := fun r c => if isOnBoard r c then 0 else 7

end GomokuRules

namespace GomokuAI

/-- AI engine state whose board holds white stones at (0,1), (0,2) and a
black stone at (0,3): black playing (0,0) captures the white pair. -/
def aiC2State : AIState := { board := mkBoard [(0, 1, 2), (0, 2, 2), (0, 3, 1)] }

end GomokuAI

/-! ### Helper lemmas about the rules engine -/

namespace GomokuRules

theorem setCell_self (b : Board) (row col : Int) (v : Nat) :
    setCell b row col v row col = v := by
  simp [setCell]

theorem setCell_other (b : Board) (row col r c : Int) (v : Nat)
    (h : ¬(r = row ∧ c = col)) : setCell b row col v r c = b r c := by
  simp only [setCell, if_neg h]

theorem getPlayerAt_setCell_other (b : Board) (row col r c : Int) (v : Nat)
    (h : ¬(r = row ∧ c = col)) :
    getPlayerAt (setCell b row col v) r c = getPlayerAt b r c := by
  unfold getPlayerAt
  rw [setCell_other b row col r c v h]

theorem getPlayerAt_cell (b : Board) (r c : Int) (v : Nat)
    (h : getPlayerAt b r c = v) (hv : v ≠ NONE) : b r c = v := by
  unfold getPlayerAt at h
  split at h
  · exact h
  · exact absurd h.symm hv

theorem getPlayerAt_onBoard (b : Board) (r c : Int) (v : Nat)
    (h : getPlayerAt b r c = v) (hv : v ≠ NONE) : isOnBoard r c = true := by
  unfold getPlayerAt at h
  split at h
  · assumption
  · exact absurd h.symm hv

theorem opponentOf_ne_none (player : Nat) : opponentOf player ≠ NONE := by
  unfold opponentOf
  split <;> simp [NONE, BLACK, WHITE]

theorem foldl_setCell_apply (v : Nat) (caps : List Point) :
    ∀ (b0 : Board) (r c : Int),
      (caps.foldl (fun bb p => setCell bb p.r p.c v) b0) r c =
        if ∃ p ∈ caps, p.r = r ∧ p.c = c then v else b0 r c := by
  induction caps with
  | nil => intro b0 r c; simp
  | cons q qs ih =>
    intro b0 r c
    rw [List.foldl_cons, ih]
    by_cases h1 : ∃ p ∈ qs, p.r = r ∧ p.c = c
    · rw [if_pos h1]
      obtain ⟨p, hp, hpc⟩ := h1
      rw [if_pos ⟨p, List.mem_cons_of_mem q hp, hpc⟩]
    · by_cases h2 : r = q.r ∧ c = q.c
      · obtain ⟨rfl, rfl⟩ := h2
        rw [if_neg h1, setCell_self, if_pos ⟨q, List.mem_cons_self q qs, rfl, rfl⟩]
      · rw [if_neg h1, setCell_other b0 q.r q.c r c v h2, if_neg ?_]
        rintro ⟨p, hp, hpr, hpc⟩
        rcases List.mem_cons.mp hp with rfl | hmem
        · exact h2 ⟨hpr.symm, hpc.symm⟩
        · exact h1 ⟨p, hmem, hpr, hpc⟩

theorem mem_checkCaptures (b : Board) (row col : Int) (player : Nat) (p : Point)
    (hp : p ∈ checkCaptures b row col player) :
    ∃ d ∈ CAPTURE_DIRECTIONS,
      (p = ⟨row + d.r, col + d.c⟩ ∨ p = ⟨row + 2 * d.r, col + 2 * d.c⟩) ∧
      getPlayerAt b (row + d.r) (col + d.c) = opponentOf player ∧
      getPlayerAt b (row + 2 * d.r) (col + 2 * d.c) = opponentOf player ∧
      getPlayerAt b (row + 3 * d.r) (col + 3 * d.c) = player := by
  unfold checkCaptures at hp
  rw [List.mem_flatten] at hp
  obtain ⟨l, hl, hpl⟩ := hp
  rw [List.mem_map] at hl
  obtain ⟨d, hd, rfl⟩ := hl
  refine ⟨d, hd, ?_⟩
  unfold capturesInDir at hpl
  split at hpl
  · rename_i hcond
    simp only [Bool.and_eq_true, beq_iff_eq] at hcond
    obtain ⟨⟨⟨⟨⟨-, -⟩, -⟩, h1⟩, h2⟩, h3⟩ := hcond
    rcases List.mem_cons.mp hpl with rfl | hpl2
    · exact ⟨Or.inl rfl, h1, h2, h3⟩
    · rcases List.mem_cons.mp hpl2 with rfl | hpl3
      · exact ⟨Or.inr rfl, h1, h2, h3⟩
      · exact absurd hpl3 (List.not_mem_nil p)
  · exact absurd hpl (List.not_mem_nil p)

theorem capture_dir_offset_ne_center (d : Direction) (hd : d ∈ CAPTURE_DIRECTIONS)
    (k row col : Int) (hk : k = 1 ∨ k = 2 ∨ k = 3) :
    ¬(row + k * d.r = row ∧ col + k * d.c = col) := by
  fin_cases hd <;> rcases hk with rfl | rfl | rfl <;>
    rintro ⟨h1, h2⟩ <;> simp_all

theorem checkCaptures_ne_center (b : Board) (row col : Int) (player : Nat) (p : Point)
    (hp : p ∈ checkCaptures b row col player) : ¬(p.r = row ∧ p.c = col) := by
  obtain ⟨d, hd, hpt, -, -, -⟩ := mem_checkCaptures b row col player p hp
  rcases hpt with rfl | rfl
  · have := capture_dir_offset_ne_center d hd 1 row col (Or.inl rfl)
    simpa using this
  · exact capture_dir_offset_ne_center d hd 2 row col (Or.inr (Or.inl rfl))

theorem checkCaptures_length_even (b : Board) (row col : Int) (player : Nat) :
    (checkCaptures b row col player).length % 2 = 0 := by
  unfold checkCaptures
  generalize CAPTURE_DIRECTIONS = ds
  induction ds with
  | nil => simp
  | cons d ds ih =>
    rw [List.map_cons, List.flatten_cons, List.length_append]
    have h2 : (capturesInDir b row col player (opponentOf player) d).length % 2 = 0 := by
      unfold capturesInDir
      split <;> simp
    omega

theorem checkCaptures_setCell (b : Board) (row col : Int) (v player : Nat) :
    checkCaptures (setCell b row col v) row col player =
      checkCaptures b row col player := by
  unfold checkCaptures
  congr 1
  apply List.map_congr_left
  intro d hd
  unfold capturesInDir
  rw [getPlayerAt_setCell_other b row col _ _ v
        (by simpa using capture_dir_offset_ne_center d hd 1 row col (Or.inl rfl)),
      getPlayerAt_setCell_other b row col _ _ v
        (capture_dir_offset_ne_center d hd 2 row col (Or.inr (Or.inl rfl))),
      getPlayerAt_setCell_other b row col _ _ v
        (capture_dir_offset_ne_center d hd 3 row col (Or.inr (Or.inr rfl)))]

/-- The round trip `applyMove` then `undoMove` on an empty target cell is the
identity on the board. -/
theorem undoMove_applyMove (b : Board) (row col : Int) (player : Nat)
    (he : b row col = NONE) :
    undoMove (applyMove b row col player).1 row col player
      (applyMove b row col player).2 = b := by
  funext r c
  unfold undoMove applyMove
  dsimp only
  by_cases hc : r = row ∧ c = col
  · obtain ⟨rfl, rfl⟩ := hc
    rw [setCell_self, he]
  · rw [setCell_other _ row col r c NONE hc, foldl_setCell_apply, foldl_setCell_apply]
    by_cases hm : ∃ p ∈ checkCaptures (setCell b row col player) row col player,
        p.r = r ∧ p.c = c
    · rw [if_pos hm]
      obtain ⟨p, hp, hpr, hpc⟩ := hm
      obtain ⟨d, hd, hpt, h1, h2, -⟩ :=
        mem_checkCaptures (setCell b row col player) row col player p hp
      have hval : getPlayerAt (setCell b row col player) p.r p.c = opponentOf player := by
        rcases hpt with rfl | rfl
        · exact h1
        · exact h2
      have hne : ¬(p.r = row ∧ p.c = col) :=
        checkCaptures_ne_center (setCell b row col player) row col player p hp
      rw [getPlayerAt_setCell_other b row col p.r p.c player hne] at hval
      have hcell : b p.r p.c = opponentOf player :=
        getPlayerAt_cell b p.r p.c _ hval (opponentOf_ne_none player)
      rw [hpr, hpc] at hcell
      exact hcell.symm
    · rw [if_neg hm, if_neg hm, setCell_other b row col r c player hc]

end GomokuRules

namespace GomokuRules

theorem applyMove_fst_apply (b : Board) (row col : Int) (player : Nat) (r c : Int) :
    (applyMove b row col player).1 r c =
      if ∃ p ∈ checkCaptures b row col player, p.r = r ∧ p.c = c then NONE
      else setCell b row col player r c := by
  unfold applyMove
  dsimp only
  rw [checkCaptures_setCell, foldl_setCell_apply]

/-- C6: on every return path (`INVALID_BOUNDS`, `INVALID_OCCUPIED`,
`INVALID_SUICIDE`, `INVALID_DOUBLE_THREE` and `VALID`), `validateMove` hands
back the board exactly as it found it: the bounds and occupancy rejections
precede any mutation, and the simulated placement is fully undone before the
function returns. -/
theorem claim_C6_validateMove_restores_board (b : Board) (row col : Int) (player : Nat) :
    (validateMoveFull b row col player).2 = b := by
  unfold validateMoveFull
  split
  · rfl
  · split
    · rfl
    · rename_i h2
      exact undoMove_applyMove b row col player (not_not.mp h2)

/-- C7: the non-mutating `checkCaptures` probe returns exactly the stones
that the mutating `applyMove` removes on the same inputs; the count is always
even; every captured stone is an opponent stone sitting at offset 1 or 2 of a
matched `[opponent][opponent][self]` direction; `applyMove` clears exactly
the captured cells, places the stone, and touches nothing else. -/
theorem claim_C7_capture_probe_matches_apply (b : Board) (row col : Int) (player : Nat) :
    (applyMove b row col player).2 = checkCaptures b row col player
    ∧ (checkCaptures b row col player).length % 2 = 0
    ∧ (∀ p ∈ checkCaptures b row col player,
        getPlayerAt b p.r p.c = opponentOf player ∧
        (applyMove b row col player).1 p.r p.c = NONE)
    ∧ (applyMove b row col player).1 row col = player
    ∧ (∀ r c : Int, ¬(r = row ∧ c = col) →
        (∀ p ∈ checkCaptures b row col player, ¬(p.r = r ∧ p.c = c)) →
        (applyMove b row col player).1 r c = b r c)
    ∧ (∀ p ∈ checkCaptures b row col player,
        ∃ d ∈ CAPTURE_DIRECTIONS,
          (p = ⟨row + d.r, col + d.c⟩ ∨ p = ⟨row + 2 * d.r, col + 2 * d.c⟩) ∧
          getPlayerAt b (row + d.r) (col + d.c) = opponentOf player ∧
          getPlayerAt b (row + 2 * d.r) (col + 2 * d.c) = opponentOf player ∧
          getPlayerAt b (row + 3 * d.r) (col + 3 * d.c) = player) := by
  have hpe : (applyMove b row col player).2 = checkCaptures b row col player :=
    checkCaptures_setCell b row col player player
  refine ⟨hpe, checkCaptures_length_even b row col player, ?_, ?_, ?_, ?_⟩
  · intro p hp
    obtain ⟨d, hd, hpt, h1, h2, h3⟩ := mem_checkCaptures b row col player p hp
    refine ⟨?_, ?_⟩
    · rcases hpt with rfl | rfl
      · exact h1
      · exact h2
    · rw [applyMove_fst_apply, if_pos ⟨p, hp, rfl, rfl⟩]
  · rw [applyMove_fst_apply, if_neg ?_, setCell_self]
    rintro ⟨p, hp, hpr, hpc⟩
    exact checkCaptures_ne_center b row col player p hp ⟨hpr, hpc⟩
  · intro r c hcenter hnone
    rw [applyMove_fst_apply, if_neg ?_, setCell_other b row col r c player hcenter]
    rintro ⟨p, hp, hpr, hpc⟩
    exact hnone p hp ⟨hpr, hpc⟩
  · exact fun p hp => mem_checkCaptures b row col player p hp

/-- C9: whenever the `capturedStones` argument is at least 10, `checkWin`
reports a win, whatever the board contents. -/
theorem claim_C9_capture_threshold_wins (b : Board) (row col : Int) (player : Nat)
    (cap : Int) (h : 10 ≤ cap) : checkWin b row col player cap = true := by
  unfold checkWin
  rw [if_pos h]

/-- Witness for C9 at a concrete input. -/
theorem claim_C9_witness :
    (10 : Int) ≤ 10 ∧ checkWin (mkBoard []) 3 3 BLACK 10 = true :=
  ⟨by norm_num, claim_C9_capture_threshold_wins (mkBoard []) 3 3 BLACK 10 (by norm_num)⟩

end GomokuRules

namespace GomokuAI

/-- C2 fails on the search engine: on a board with white stones at (0,1),
(0,2) and a black stone at (0,3), black playing (0,0) captures the white
pair, and `undoMove` restores the capture counters and removes the placed
stone but leaves the two captured cells empty — the board is not restored.
(The `MoveHistory.capturedStones` buffer is never populated.) -/
theorem claim_C2_ai_undo_does_not_restore_board :
    aiC2State.board 0 1 = WHITE ∧ aiC2State.board 0 2 = WHITE ∧
    (undoMove (makeMoveWithCaptures aiC2State 0 0 BLACK)).board 0 1 = EMPTY ∧
    (undoMove (makeMoveWithCaptures aiC2State 0 0 BLACK)).board 0 2 = EMPTY ∧
    (undoMove (makeMoveWithCaptures aiC2State 0 0 BLACK)).board 0 0 = EMPTY ∧
    (undoMove (makeMoveWithCaptures aiC2State 0 0 BLACK)).capturedByBlack = 0 ∧
    (undoMove (makeMoveWithCaptures aiC2State 0 0 BLACK)).moveHistory.length = 0 := by
  decide

/-- C8 fails on the search engine: one simulated placement executes
`saveState` (one push) and `makeMoveWithCaptures` (second push), and
`undoMove` pops a single record, so after the placement is fully undone
(stone removed, counters restored — zero plies applied) the history stack is
one record deeper than before. -/
theorem claim_C8_two_pushes_one_pop :
    aiC2State.moveHistory.length = 0 ∧
    (undoMove (makeMoveWithCaptures (saveState aiC2State) 9 9 BLACK)).board 9 9 = EMPTY ∧
    (undoMove (makeMoveWithCaptures (saveState aiC2State) 9 9 BLACK)).capturedByBlack = 0 ∧
    (undoMove (makeMoveWithCaptures (saveState aiC2State) 9 9 BLACK)).capturedByWhite = 0 ∧
    (undoMove (makeMoveWithCaptures (saveState aiC2State) 9 9 BLACK)).moveHistory.length
      = 1 := by
  decide

end GomokuAI

namespace GomokuRules

/-- C3: with an in-bounds empty target, if the placement captures nothing and
the placed stone together with an adjacent own stone is flanked as
`[opponent][self][self][opponent]` along some direction, `validateMove`
rejects the move as `INVALID_SUICIDE`; if the same placement captures at
least one pair, it is never rejected as suicide. -/
theorem claim_C3_suicide_exception (b : Board) (row col : Int) (player : Nat)
    (hb : isOnBoard row col = true) (he : b row col = NONE)
    (hp : player = BLACK ∨ player = WHITE) :
    ((applyMove b row col player).2 = [] →
      (∃ d ∈ CAPTURE_DIRECTIONS,
        getPlayerAt (setCell b row col player) (row + d.r) (col + d.c) = player ∧
        getPlayerAt (setCell b row col player) (row - d.r) (col - d.c)
          = opponentOf player ∧
        getPlayerAt (setCell b row col player) (row + 2 * d.r) (col + 2 * d.c)
          = opponentOf player) →
      validateMove b row col player = .INVALID_SUICIDE)
    ∧ ((applyMove b row col player).2 ≠ [] →
        validateMove b row col player ≠ .INVALID_SUICIDE) := by
  have hplayer_ne : player ≠ NONE := by
    rcases hp with rfl | rfl <;> simp [BLACK, WHITE, NONE]
  constructor
  · intro hcaps hex
    obtain ⟨d, hd, hadj, hback, hfront⟩ := hex
    have h1 : (applyMove b row col player).1 = setCell b row col player := by
      unfold applyMove
      dsimp only
      rw [show checkCaptures (setCell b row col player) row col player = [] from hcaps]
      rfl
    have hsui : isSuicideMove (setCell b row col player) row col player = true := by
      unfold isSuicideMove scanNeighborPairs
      rw [List.any_eq_true]
      refine ⟨d, hd, ?_⟩
      have hob : isOnBoard (row + d.r) (col + d.c) = true :=
        getPlayerAt_onBoard _ _ _ player hadj hplayer_ne
      rw [Bool.and_eq_true, Bool.and_eq_true]
      refine ⟨⟨hob, by rw [beq_iff_eq]; exact hadj⟩, ?_⟩
      unfold isPairSurrounded
      dsimp only
      rw [Bool.and_eq_true, beq_iff_eq, beq_iff_eq]
      constructor
      · rw [show row - (row + d.r - row) = row - d.r by ring,
            show col - (col + d.c - col) = col - d.c by ring]
        exact hback
      · rw [show row + d.r + (row + d.r - row) = row + 2 * d.r by ring,
            show col + d.c + (col + d.c - col) = col + 2 * d.c by ring]
        exact hfront
    unfold validateMove validateMoveFull
    rw [if_neg (by simp [hb]), if_neg (by simp [he])]
    dsimp only
    rw [hcaps, h1, hsui]
    simp
  · intro hcaps
    unfold validateMove validateMoveFull
    rw [if_neg (by simp [hb]), if_neg (by simp [he])]
    dsimp only
    have hlen : ((applyMove b row col player).2.length == 0) = false := by
      rw [beq_eq_false_iff_ne]
      intro h
      exact hcaps (List.length_eq_zero.mp h)
    rw [hlen]
    simp

theorem claim_C3_witness :
    isOnBoard 2 2 = true ∧ witC3Board 2 2 = NONE ∧
    (applyMove witC3Board 2 2 BLACK).2 = [] ∧
    validateMove witC3Board 2 2 BLACK = .INVALID_SUICIDE := by
  refine ⟨by decide, by decide, by decide, ?_⟩
  exact (claim_C3_suicide_exception witC3Board 2 2 BLACK (by decide) (by decide)
      (Or.inl rfl)).1 (by decide)
      ⟨⟨0, 1⟩, by decide, by decide, by decide, by decide⟩

end GomokuRules

namespace GomokuRules

theorem two_le_countP_iff_pair {α : Type} :
    ∀ (l : List α), l.Nodup → ∀ (f : α → Bool),
      (2 ≤ l.countP f ↔
        ∃ a ∈ l, ∃ c ∈ l, a ≠ c ∧ f a = true ∧ f c = true) := by
  intro l
  induction l with
  | nil => intro _ f; simp
  | cons x xs ih =>
    intro hnd f
    obtain ⟨hx, hxs⟩ := List.nodup_cons.mp hnd
    rw [List.countP_cons]
    by_cases hfx : f x = true
    · rw [if_pos hfx]
      constructor
      · intro h2
        have h1 : 0 < xs.countP f := by omega
        obtain ⟨c, hc, hfc⟩ := List.countP_pos_iff.mp h1
        exact ⟨x, List.mem_cons_self x xs, c, List.mem_cons_of_mem x hc,
          fun hxc => hx (hxc ▸ hc), hfx, hfc⟩
      · rintro ⟨a, ha, c, hc, hac, hfa, hfc⟩
        have hpos : 0 < xs.countP f := by
          rcases List.mem_cons.mp ha with rfl | ha2
          · rcases List.mem_cons.mp hc with rfl | hc2
            · exact absurd rfl hac
            · exact List.countP_pos_iff.mpr ⟨c, hc2, hfc⟩
          · exact List.countP_pos_iff.mpr ⟨a, ha2, hfa⟩
        omega
    · rw [if_neg hfx]
      simp only [Nat.add_zero]
      rw [ih hxs f]
      constructor
      · rintro ⟨a, ha, c, hc, hac, hfa, hfc⟩
        exact ⟨a, List.mem_cons_of_mem x ha, c, List.mem_cons_of_mem x hc, hac, hfa, hfc⟩
      · rintro ⟨a, ha, c, hc, hac, hfa, hfc⟩
        have ha2 : a ∈ xs := by
          rcases List.mem_cons.mp ha with rfl | h
          · exact absurd hfa hfx
          · exact h
        have hc2 : c ∈ xs := by
          rcases List.mem_cons.mp hc with rfl | h
          · exact absurd hfc hfx
          · exact h
        exact ⟨a, ha2, c, hc2, hac, hfa, hfc⟩

/-- C4 as frozen is falsified here: black at (2,2) on `cexC4Board` captures
nothing and creates free-threes on two axes, yet `validateMove` does not
return `INVALID_DOUBLE_THREE` (the move is also a suicide, which is checked
first). -/
theorem claim_C4_counterexample :
    isOnBoard 2 2 = true ∧ cexC4Board 2 2 = NONE ∧
    (applyMove cexC4Board 2 2 BLACK).2 = [] ∧
    checkDoubleThree (setCell cexC4Board 2 2 BLACK) 2 2 BLACK = true ∧
    validateMove cexC4Board 2 2 BLACK ≠ .INVALID_DOUBLE_THREE := by
  decide

/-- C4 amended: with an in-bounds empty target, `validateMove` returns
`INVALID_DOUBLE_THREE` exactly when the placement captures nothing, is not a
suicide move (suicide is checked first and takes precedence), and at least
two distinct axes carry a free-three through the placed stone. -/
theorem claim_C4_amended (b : Board) (row col : Int) (player : Nat)
    (hb : isOnBoard row col = true) (he : b row col = NONE) :
    (validateMove b row col player = .INVALID_DOUBLE_THREE ↔
      ((applyMove b row col player).2 = [] ∧
        isSuicideMove (setCell b row col player) row col player = false ∧
        ∃ d1 ∈ AXES, ∃ d2 ∈ AXES, d1 ≠ d2 ∧
          isFreeThree (setCell b row col player) row col d1 player = true ∧
          isFreeThree (setCell b row col player) row col d2 player = true)) := by
  have haxes : AXES.Nodup := by decide
  unfold validateMove validateMoveFull
  rw [if_neg (by simp [hb]), if_neg (by simp [he])]
  dsimp only
  by_cases hcaps : (applyMove b row col player).2 = []
  · have h1 : (applyMove b row col player).1 = setCell b row col player := by
      unfold applyMove
      dsimp only
      rw [show checkCaptures (setCell b row col player) row col player = [] from hcaps]
      rfl
    rw [hcaps, h1]
    simp only [List.length_nil, Nat.zero_eq, beq_self_eq_true, Bool.true_and]
    by_cases hsui : isSuicideMove (setCell b row col player) row col player = true
    · rw [if_pos hsui]
      simp only [hsui]
      constructor
      · intro h; exact absurd h (by simp)
      · rintro ⟨-, hfalse, -⟩
        simp at hfalse
    · rw [if_neg hsui]
      rw [Bool.not_eq_true] at hsui
      by_cases hdt : checkDoubleThree (setCell b row col player) row col player = true
      · rw [if_pos hdt]
        unfold checkDoubleThree at hdt
        rw [decide_eq_true_eq] at hdt
        have hpair := (two_le_countP_iff_pair AXES haxes
          (fun dir => isFreeThree (setCell b row col player) row col dir player)).mp hdt
        obtain ⟨d1, hd1, d2, hd2, hne, hf1, hf2⟩ := hpair
        constructor
        · intro _
          exact ⟨by trivial, hsui, d1, hd1, d2, hd2, hne, hf1, hf2⟩
        · intro _
          rfl
      · rw [if_neg hdt]
        constructor
        · intro h; exact absurd h (by simp)
        · rintro ⟨-, -, d1, hd1, d2, hd2, hne, hf1, hf2⟩
          have hcdt : checkDoubleThree (setCell b row col player) row col player = true := by
            unfold checkDoubleThree
            rw [decide_eq_true_eq]
            exact (two_le_countP_iff_pair AXES haxes
              (fun dir => isFreeThree (setCell b row col player) row col dir player)).mpr
              ⟨d1, hd1, d2, hd2, hne, hf1, hf2⟩
          exact absurd hcdt hdt
  · have hlen : ((applyMove b row col player).2.length == 0) = false := by
      rw [beq_eq_false_iff_ne]
      intro h
      exact hcaps (List.length_eq_zero.mp h)
    rw [hlen]
    simp only [Bool.false_and, if_false]
    constructor
    · intro h; exact absurd h (by simp)
    · rintro ⟨h, -⟩; exact absurd h hcaps

/-- Witness for the amended C4 at a concrete double-three position. -/
theorem claim_C4_witness :
    isOnBoard 2 2 = true ∧ witC4Board 2 2 = NONE ∧
    validateMove witC4Board 2 2 BLACK = .INVALID_DOUBLE_THREE := by
  refine ⟨by decide, by decide, ?_⟩
  exact (claim_C4_amended witC4Board 2 2 BLACK (by decide) (by decide)).mpr
    ⟨by decide, by decide, ⟨0, 1⟩, by decide, ⟨1, 0⟩, by decide, by decide,
      by decide, by decide⟩

end GomokuRules

namespace GomokuRules

theorem maxRunAux_nil (cur mx : Nat) : maxRunAux [] cur mx = max mx cur := rfl

theorem maxRunAux_cons_true (xs : List Bool) (cur mx : Nat) :
    maxRunAux (true :: xs) cur mx = maxRunAux xs 0 (max mx cur) := rfl

theorem maxRunAux_cons_false (xs : List Bool) (cur mx : Nat) :
    maxRunAux (false :: xs) cur mx = maxRunAux xs (cur + 1) mx := rfl

theorem maxRunAux_lower (l : List Bool) :
    ∀ cur mx : Nat, mx ≤ maxRunAux l cur mx ∧ cur ≤ maxRunAux l cur mx := by
  induction l with
  | nil =>
    intro cur mx
    rw [maxRunAux_nil]
    exact ⟨Nat.le_max_left mx cur, Nat.le_max_right mx cur⟩
  | cons x xs ih =>
    intro cur mx
    cases x with
    | true =>
      rw [maxRunAux_cons_true]
      have h := ih 0 (max mx cur)
      constructor
      · exact Nat.le_trans (Nat.le_max_left mx cur) h.1
      · exact Nat.le_trans (Nat.le_max_right mx cur) h.1
    | false =>
      rw [maxRunAux_cons_false]
      have h := ih (cur + 1) mx
      exact ⟨h.1, Nat.le_trans (Nat.le_succ cur) h.2⟩

theorem maxRunAux_prefix (n : Nat) :
    ∀ (l : List Bool) (cur mx : Nat), (∀ j : Nat, j < n → l[j]? = some false) →
      n ≤ l.length → cur + n ≤ maxRunAux l cur mx := by
  induction n with
  | zero =>
    intro l cur mx _ _
    simpa using (maxRunAux_lower l cur mx).2
  | succ n ih =>
    intro l cur mx hall hlen
    match l with
    | [] => simp at hlen
    | x :: xs =>
      have hx : x = false := by
        have h0 := hall 0 (Nat.succ_pos n)
        simpa using h0
      subst hx
      rw [maxRunAux_cons_false]
      have hrec := ih xs (cur + 1) mx
        (fun j hj => by
          have := hall (j + 1) (by omega)
          simpa using this)
        (by simp only [List.length_cons] at hlen; omega)
      omega

theorem maxRunAux_ge_of_window (i : Nat) :
    ∀ (l : List Bool) (n cur mx : Nat),
      (∀ j : Nat, j < n → l[i + j]? = some false) → i + n ≤ l.length →
      n ≤ maxRunAux l cur mx := by
  induction i with
  | zero =>
    intro l n cur mx hw hlen
    have := maxRunAux_prefix n l cur mx (fun j hj => by simpa using hw j hj) (by omega)
    omega
  | succ i ih =>
    intro l n cur mx hw hlen
    match l with
    | [] => simp at hlen
    | x :: xs =>
      have hw2 : ∀ j : Nat, j < n → xs[i + j]? = some false := by
        intro j hj
        have h := hw j hj
        rw [show i.succ + j = (i + j) + 1 by omega, List.getElem?_cons_succ] at h
        exact h
      have hlen2 : i + n ≤ xs.length := by simp at hlen; omega
      cases x with
      | true => rw [maxRunAux_cons_true]; exact ih xs n 0 (max mx cur) hw2 hlen2
      | false => rw [maxRunAux_cons_false]; exact ih xs n (cur + 1) mx hw2 hlen2

theorem maxRunAux_window_of_ge (l : List Bool) :
    ∀ (cur mx n : Nat), 0 < n → n ≤ maxRunAux l cur mx →
      n ≤ mx ∨
      (∃ i : Nat, i + n ≤ l.length ∧ ∀ j : Nat, j < n → l[i + j]? = some false) ∨
      (∃ m : Nat, m ≤ l.length ∧ (∀ j : Nat, j < m → l[j]? = some false) ∧ n ≤ cur + m) := by
  induction l with
  | nil =>
    intro cur mx n hn h
    rw [maxRunAux_nil] at h
    rcases le_max_iff.mp h with h1 | h1
    · exact Or.inl h1
    · refine Or.inr (Or.inr ⟨0, by simp, ?_, by omega⟩)
      intro j hj
      omega
  | cons x xs ih =>
    intro cur mx n hn h
    cases x with
    | true =>
      rw [maxRunAux_cons_true] at h
      rcases ih 0 (max mx cur) n hn h with h1 | h2 | h3
      · rcases le_max_iff.mp h1 with h4 | h4
        · exact Or.inl h4
        · refine Or.inr (Or.inr ⟨0, by simp, ?_, by omega⟩)
          intro j hj
          omega
      · obtain ⟨i, hilen, hwin⟩ := h2
        refine Or.inr (Or.inl ⟨i + 1, by simp; omega, ?_⟩)
        intro j hj
        rw [show i + 1 + j = (i + j) + 1 by omega, List.getElem?_cons_succ]
        exact hwin j hj
      · obtain ⟨m, hmlen, hpre, hnm⟩ := h3
        refine Or.inr (Or.inl ⟨1, by simp; omega, ?_⟩)
        intro j hj
        rw [show 1 + j = j + 1 by omega, List.getElem?_cons_succ]
        exact hpre j (by omega)
    | false =>
      rw [maxRunAux_cons_false] at h
      rcases ih (cur + 1) mx n hn h with h1 | h2 | h3
      · exact Or.inl h1
      · obtain ⟨i, hilen, hwin⟩ := h2
        refine Or.inr (Or.inl ⟨i + 1, by simp; omega, ?_⟩)
        intro j hj
        rw [show i + 1 + j = (i + j) + 1 by omega, List.getElem?_cons_succ]
        exact hwin j hj
      · obtain ⟨m, hmlen, hpre, hnm⟩ := h3
        refine Or.inr (Or.inr ⟨m + 1, by simp; omega, ?_, by omega⟩)
        intro j hj
        cases j with
        | zero => simp
        | succ j =>
          rw [List.getElem?_cons_succ]
          exact hpre j (by omega)

theorem maxRunAux_window (l : List Bool) (n : Nat) (hn : 0 < n)
    (h : n ≤ maxRunAux l 0 0) :
    ∃ i : Nat, i + n ≤ l.length ∧ ∀ j : Nat, j < n → l[i + j]? = some false := by
  rcases maxRunAux_window_of_ge l 0 0 n hn h with h1 | h2 | h3
  · omega
  · exact h2
  · obtain ⟨m, hm, hpre, hnm⟩ := h3
    refine ⟨0, by omega, ?_⟩
    intro j hj
    have := hpre j (by omega)
    simpa using this

end GomokuRules

namespace GomokuRules

theorem scanDir_eq_map (b : Board) (player : Nat) (dir : Direction) :
    ∀ (m fuel : Nat) (r c : Int), m < fuel →
      (∀ k : Nat, k < m → getPlayerAt b (r + (k : Int) * dir.r) (c + (k : Int) * dir.c)
        = player) →
      getPlayerAt b (r + (m : Int) * dir.r) (c + (m : Int) * dir.c) ≠ player →
      scanDir b player fuel r c dir =
        (List.range m).map fun (k : Nat) =>
          (⟨r + (k : Int) * dir.r, c + (k : Int) * dir.c⟩ : Point) := by
  intro m
  induction m with
  | zero =>
    intro fuel r c hf _ hstop
    match fuel, hf with
    | fuel + 1, _ =>
      unfold scanDir
      rw [if_neg ?_]
      · simp
      · simp only [beq_iff_eq]
        simpa using hstop
  | succ m ih =>
    intro fuel r c hf hall hstop
    match fuel, hf with
    | fuel + 1, hf =>
      have h0 : getPlayerAt b r c = player := by
        have := hall 0 (Nat.succ_pos m)
        simpa using this
      unfold scanDir
      rw [if_pos (by simp only [beq_iff_eq]; exact h0)]
      have hall2 : ∀ k : Nat, k < m →
          getPlayerAt b (r + dir.r + (k : Int) * dir.r)
            (c + dir.c + (k : Int) * dir.c) = player := by
        intro k hk
        have h := hall (k + 1) (by omega)
        rw [show r + ((k + 1 : Nat) : Int) * dir.r = r + dir.r + (k : Int) * dir.r by
              push_cast; ring,
            show c + ((k + 1 : Nat) : Int) * dir.c = c + dir.c + (k : Int) * dir.c by
              push_cast; ring] at h
        exact h
      have hstop2 : getPlayerAt b (r + dir.r + (m : Int) * dir.r)
          (c + dir.c + (m : Int) * dir.c) ≠ player := by
        rw [show r + dir.r + (m : Int) * dir.r = r + ((m + 1 : Nat) : Int) * dir.r by
              push_cast; ring,
            show c + dir.c + (m : Int) * dir.c = c + ((m + 1 : Nat) : Int) * dir.c by
              push_cast; ring]
        exact hstop
      rw [ih fuel (r + dir.r) (c + dir.c) (by omega) hall2 hstop2]
      rw [List.range_succ_eq_map, List.map_cons, List.map_map]
      congr 1
      · simp
      · apply List.map_congr_left
        intro k _
        show (⟨r + dir.r + (k : Int) * dir.r, c + dir.c + (k : Int) * dir.c⟩ : Point)
          = ⟨r + ((k + 1 : Nat) : Int) * dir.r, c + ((k + 1 : Nat) : Int) * dir.c⟩
        rw [Point.mk.injEq]
        constructor <;> push_cast <;> ring

theorem axes_off_board (row col : Int) (h : isOnBoard row col = true)
    (d : Direction) (hd : d ∈ AXES) (k : Int) (hk : 6 ≤ k ∨ k ≤ -6) :
    isOnBoard (row + k * d.r) (col + k * d.c) = false := by
  simp only [isOnBoard, BOARD_SIZE, decide_eq_true_eq] at h
  rw [isOnBoard, decide_eq_false_iff_not, BOARD_SIZE]
  fin_cases hd <;> simp <;> omega

end GomokuRules

namespace GomokuRules

theorem reverse_neg_map_eq (row col : Int) (d : Direction) (a : Nat) :
    ((List.range a).map fun (k : Nat) =>
        (⟨row - d.r + (k : Int) * -d.r, col - d.c + (k : Int) * -d.c⟩ : Point)).reverse
      = (List.range a).map fun (j : Nat) =>
        (⟨row + ((j : Int) - (a : Int)) * d.r, col + ((j : Int) - (a : Int)) * d.c⟩
          : Point) := by
  apply List.ext_getElem?
  intro n
  by_cases hn : n < a
  · rw [List.getElem?_reverse (by simpa using hn)]
    simp only [List.length_map, List.length_range]
    rw [List.getElem?_map, List.getElem?_map, List.getElem?_range hn,
        List.getElem?_range (by omega : a - 1 - n < a)]
    simp only [Option.map_some']
    congr 1
    rw [Point.mk.injEq]
    have hcast : ((a - 1 - n : Nat) : Int) = (a : Int) - 1 - (n : Int) := by omega
    constructor <;> rw [hcast] <;> ring
  · rw [List.getElem?_eq_none (by simpa using hn),
        List.getElem?_eq_none (by simp; omega)]

theorem run_line_eq (row col : Int) (d : Direction) (a bp : Nat) :
    ((List.range a).map fun (k : Nat) =>
        (⟨row - d.r + (k : Int) * -d.r, col - d.c + (k : Int) * -d.c⟩ : Point)).reverse
      ++ (⟨row, col⟩ : Point) :: ((List.range bp).map fun (k : Nat) =>
        (⟨row + d.r + (k : Int) * d.r, col + d.c + (k : Int) * d.c⟩ : Point))
    = (List.range (a + 1 + bp)).map fun (j : Nat) =>
        (⟨row + ((j : Int) - (a : Int)) * d.r, col + ((j : Int) - (a : Int)) * d.c⟩
          : Point) := by
  rw [List.range_add, List.map_append, List.range_succ, List.map_append, List.map_map,
      reverse_neg_map_eq, List.append_assoc]
  congr 1
  rw [List.map_singleton]
  show (⟨row, col⟩ : Point) :: _ = _ ++ _
  rw [List.singleton_append]
  congr 1
  · rw [Point.mk.injEq]
    constructor <;> simp
  · apply List.map_congr_left
    intro k _
    show (⟨row + d.r + (k : Int) * d.r, col + d.c + (k : Int) * d.c⟩ : Point)
      = (⟨row + (((a + 1 + k : Nat) : Int) - (a : Int)) * d.r,
          col + (((a + 1 + k : Nat) : Int) - (a : Int)) * d.c⟩ : Point)
    rw [Point.mk.injEq]
    constructor <;> push_cast <;> ring

end GomokuRules

namespace GomokuRules

theorem getPlayerAt_off (b : Board) (r c : Int) (h : isOnBoard r c = false) :
    getPlayerAt b r c = NONE := by
  unfold getPlayerAt
  rw [h]
  simp

/-- C1 amended: for `capturedStones < 10` and a player stone at `(row, col)`,
`checkWin` returns true exactly when some axis carries a maximal contiguous
run of the player's stones through `(row, col)` of length at least 5 in which,
after simultaneously removing every stone that is capturable by some legal
opponent capturing move, five consecutive stones still survive.  (The
breakability test aggregates all capturable stones at once; a single
opponent capture need not suffice.) -/
theorem claim_C1_amended (b : Board) (row col : Int) (player : Nat) (cap : Int)
    (hcap : cap < 10) (hp : player = BLACK ∨ player = WHITE)
    (hc : getPlayerAt b row col = player) :
    (checkWin b row col player cap = true ↔
      ∃ d ∈ AXES, ∃ a bp : Nat,
        (∀ j : Nat, j < a + 1 + bp →
          getPlayerAt b (row + ((j : Int) - (a : Int)) * d.r)
            (col + ((j : Int) - (a : Int)) * d.c) = player) ∧
        getPlayerAt b (row + (-((a : Int) + 1)) * d.r) (col + (-((a : Int) + 1)) * d.c)
          ≠ player ∧
        getPlayerAt b (row + ((bp : Int) + 1) * d.r) (col + ((bp : Int) + 1) * d.c)
          ≠ player ∧
        5 ≤ a + 1 + bp ∧
        (∃ i : Nat, i + 5 ≤ a + 1 + bp ∧ ∀ j : Nat, j < 5 →
          isStoneCapturable b (row + (((i + j : Nat) : Int) - (a : Int)) * d.r)
            (col + (((i + j : Nat) : Int) - (a : Int)) * d.c) (opponentOf player)
            = false)) := by
  have hpne : player ≠ NONE := by
    rcases hp with rfl | rfl <;> simp [BLACK, WHITE, NONE]
  have hob : isOnBoard row col = true := getPlayerAt_onBoard b row col player hc hpne
  unfold checkWin
  rw [if_neg (by omega), List.any_eq_true]
  constructor
  · rintro ⟨d, hd, hpred⟩
    rw [Bool.and_eq_true, decide_eq_true_eq, Bool.not_eq_true'] at hpred
    obtain ⟨h5len, hbrk⟩ := hpred
    have hstop5p : ¬(getPlayerAt b (row + d.r + ((5 : Nat) : Int) * d.r)
        (col + d.c + ((5 : Nat) : Int) * d.c) = player) := by
      rw [show row + d.r + ((5 : Nat) : Int) * d.r = row + 6 * d.r by push_cast; ring,
          show col + d.c + ((5 : Nat) : Int) * d.c = col + 6 * d.c by push_cast; ring,
          getPlayerAt_off b _ _ (axes_off_board row col hob d hd 6 (Or.inl le_rfl))]
      exact fun h => hpne h.symm
    have hstop5n : ¬(getPlayerAt b (row - d.r + ((5 : Nat) : Int) * -d.r)
        (col - d.c + ((5 : Nat) : Int) * -d.c) = player) := by
      rw [show row - d.r + ((5 : Nat) : Int) * -d.r = row + (-6) * d.r by push_cast; ring,
          show col - d.c + ((5 : Nat) : Int) * -d.c = col + (-6) * d.c by push_cast; ring,
          getPlayerAt_off b _ _ (axes_off_board row col hob d hd (-6) (Or.inr (by omega)))]
      exact fun h => hpne h.symm
    have hex_pos : ∃ m : Nat, ¬(getPlayerAt b (row + d.r + (m : Int) * d.r)
        (col + d.c + (m : Int) * d.c) = player) := ⟨5, hstop5p⟩
    have hex_neg : ∃ m : Nat, ¬(getPlayerAt b (row - d.r + (m : Int) * -d.r)
        (col - d.c + (m : Int) * -d.c) = player) := ⟨5, hstop5n⟩
    have hbp5 : Nat.find hex_pos ≤ 5 := Nat.find_min' hex_pos hstop5p
    have ha5 : Nat.find hex_neg ≤ 5 := Nat.find_min' hex_neg hstop5n
    have hscan_pos : scanDir b player 7 (row + d.r) (col + d.c) d =
        (List.range (Nat.find hex_pos)).map fun (k : Nat) =>
          (⟨row + d.r + (k : Int) * d.r, col + d.c + (k : Int) * d.c⟩ : Point) :=
      scanDir_eq_map b player d (Nat.find hex_pos) 7 (row + d.r) (col + d.c)
        (by omega) (fun k hk => not_not.mp (Nat.find_min hex_pos hk))
        (Nat.find_spec hex_pos)
    have hscan_neg : scanDir b player 7 (row - d.r) (col - d.c) ⟨-d.r, -d.c⟩ =
        (List.range (Nat.find hex_neg)).map fun (k : Nat) =>
          (⟨row - d.r + (k : Int) * -d.r, col - d.c + (k : Int) * -d.c⟩ : Point) :=
      scanDir_eq_map b player ⟨-d.r, -d.c⟩ (Nat.find hex_neg) 7 (row - d.r) (col - d.c)
        (by omega) (fun k hk => not_not.mp (Nat.find_min hex_neg hk))
        (Nat.find_spec hex_neg)
    rw [hscan_pos, hscan_neg, run_line_eq] at h5len hbrk
    rw [List.length_map, List.length_range] at h5len
    refine ⟨d, hd, Nat.find hex_neg, Nat.find hex_pos, ?_, ?_, ?_, h5len, ?_⟩
    · intro j hj
      by_cases hja : j < Nat.find hex_neg
      · have hmn := not_not.mp (Nat.find_min hex_neg
          (show Nat.find hex_neg - 1 - j < Nat.find hex_neg by omega))
        rw [show row - d.r + ((Nat.find hex_neg - 1 - j : Nat) : Int) * -d.r
              = row + ((j : Int) - (Nat.find hex_neg : Int)) * d.r by
            have hcst : ((Nat.find hex_neg - 1 - j : Nat) : Int)
                = (Nat.find hex_neg : Int) - 1 - (j : Int) := by omega
            rw [hcst]; ring,
          show col - d.c + ((Nat.find hex_neg - 1 - j : Nat) : Int) * -d.c
              = col + ((j : Int) - (Nat.find hex_neg : Int)) * d.c by
            have hcst : ((Nat.find hex_neg - 1 - j : Nat) : Int)
                = (Nat.find hex_neg : Int) - 1 - (j : Int) := by omega
            rw [hcst]; ring] at hmn
        exact hmn
      · by_cases hje : j = Nat.find hex_neg
        · subst hje
          rw [sub_self, zero_mul, zero_mul, add_zero, add_zero]
          exact hc
        · have hmp := not_not.mp (Nat.find_min hex_pos
            (show j - Nat.find hex_neg - 1 < Nat.find hex_pos by omega))
          rw [show row + d.r + ((j - Nat.find hex_neg - 1 : Nat) : Int) * d.r
                = row + ((j : Int) - (Nat.find hex_neg : Int)) * d.r by
              have hcst : ((j - Nat.find hex_neg - 1 : Nat) : Int)
                  = (j : Int) - (Nat.find hex_neg : Int) - 1 := by omega
              rw [hcst]; ring,
            show col + d.c + ((j - Nat.find hex_neg - 1 : Nat) : Int) * d.c
                = col + ((j : Int) - (Nat.find hex_neg : Int)) * d.c by
              have hcst : ((j - Nat.find hex_neg - 1 : Nat) : Int)
                  = (j : Int) - (Nat.find hex_neg : Int) - 1 := by omega
              rw [hcst]; ring] at hmp
          exact hmp
    · have hsn := Nat.find_spec hex_neg
      rw [show row - d.r + ((Nat.find hex_neg : Nat) : Int) * -d.r
            = row + (-((Nat.find hex_neg : Int) + 1)) * d.r by ring,
          show col - d.c + ((Nat.find hex_neg : Nat) : Int) * -d.c
            = col + (-((Nat.find hex_neg : Int) + 1)) * d.c by ring] at hsn
      exact hsn
    · have hsp := Nat.find_spec hex_pos
      rw [show row + d.r + ((Nat.find hex_pos : Nat) : Int) * d.r
            = row + ((Nat.find hex_pos : Int) + 1) * d.r by ring,
          show col + d.c + ((Nat.find hex_pos : Nat) : Int) * d.c
            = col + ((Nat.find hex_pos : Int) + 1) * d.c by ring] at hsp
      exact hsp
    · unfold isLineBreakableByCapture at hbrk
      rw [if_neg (by rw [List.length_map, List.length_range]; omega),
          decide_eq_false_iff_not, Nat.not_lt, List.map_map] at hbrk
      obtain ⟨i, hi, hw⟩ := maxRunAux_window _ 5 (by omega) hbrk
      rw [List.length_map, List.length_range] at hi
      refine ⟨i, hi, ?_⟩
      intro j hj
      have hwj := hw j hj
      rw [List.getElem?_map, List.getElem?_range (by omega), Option.map_some'] at hwj
      simpa using hwj
  · rintro ⟨d, hd, a, bp, hrun, hnegend, hposend, h5, i, hi, hw⟩
    have ha5 : a ≤ 5 := by
      by_contra hgt
      push_neg at hgt
      have h0 := hrun 0 (by omega)
      rw [show row + (((0 : Nat) : Int) - (a : Int)) * d.r = row + (-(a : Int)) * d.r by
            push_cast; ring,
          show col + (((0 : Nat) : Int) - (a : Int)) * d.c = col + (-(a : Int)) * d.c by
            push_cast; ring,
          getPlayerAt_off b _ _ (axes_off_board row col hob d hd (-(a : Int))
            (Or.inr (by omega)))] at h0
      exact hpne h0.symm
    have hbp5 : bp ≤ 5 := by
      by_contra hgt
      push_neg at hgt
      have h0 := hrun (a + bp) (by omega)
      rw [show row + (((a + bp : Nat) : Int) - (a : Int)) * d.r
            = row + (bp : Int) * d.r by push_cast; ring,
          show col + (((a + bp : Nat) : Int) - (a : Int)) * d.c
            = col + (bp : Int) * d.c by push_cast; ring,
          getPlayerAt_off b _ _ (axes_off_board row col hob d hd (bp : Int)
            (Or.inl (by omega)))] at h0
      exact hpne h0.symm
    have hscan_pos : scanDir b player 7 (row + d.r) (col + d.c) d =
        (List.range bp).map fun (k : Nat) =>
          (⟨row + d.r + (k : Int) * d.r, col + d.c + (k : Int) * d.c⟩ : Point) := by
      apply scanDir_eq_map b player d bp 7 (row + d.r) (col + d.c) (by omega)
      · intro k hk
        have hr := hrun (a + 1 + k) (by omega)
        rw [show row + (((a + 1 + k : Nat) : Int) - (a : Int)) * d.r
              = row + d.r + (k : Int) * d.r by push_cast; ring,
            show col + (((a + 1 + k : Nat) : Int) - (a : Int)) * d.c
              = col + d.c + (k : Int) * d.c by push_cast; ring] at hr
        exact hr
      · intro hcon
        apply hposend
        rw [show row + ((bp : Int) + 1) * d.r = row + d.r + (bp : Int) * d.r by ring,
            show col + ((bp : Int) + 1) * d.c = col + d.c + (bp : Int) * d.c by ring]
        exact hcon
    have hscan_neg : scanDir b player 7 (row - d.r) (col - d.c) ⟨-d.r, -d.c⟩ =
        (List.range a).map fun (k : Nat) =>
          (⟨row - d.r + (k : Int) * -d.r, col - d.c + (k : Int) * -d.c⟩ : Point) := by
      apply scanDir_eq_map b player ⟨-d.r, -d.c⟩ a 7 (row - d.r) (col - d.c) (by omega)
      · intro k hk
        have hr := hrun (a - 1 - k) (by omega)
        have hcst : ((a - 1 - k : Nat) : Int) = (a : Int) - 1 - (k : Int) := by omega
        rw [show row + (((a - 1 - k : Nat) : Int) - (a : Int)) * d.r
              = row - d.r + (k : Int) * -d.r by rw [hcst]; ring,
            show col + (((a - 1 - k : Nat) : Int) - (a : Int)) * d.c
              = col - d.c + (k : Int) * -d.c by rw [hcst]; ring] at hr
        exact hr
      · intro hcon
        apply hnegend
        rw [show row + (-((a : Int) + 1)) * d.r = row - d.r + (a : Int) * -d.r by ring,
            show col + (-((a : Int) + 1)) * d.c = col - d.c + (a : Int) * -d.c by ring]
        exact hcon
    refine ⟨d, hd, ?_⟩
    rw [hscan_pos, hscan_neg, run_line_eq, Bool.and_eq_true]
    constructor
    · rw [decide_eq_true_eq, List.length_map, List.length_range]
      exact h5
    · rw [Bool.not_eq_true']
      unfold isLineBreakableByCapture
      rw [if_neg (by rw [List.length_map, List.length_range]; omega),
          decide_eq_false_iff_not, Nat.not_lt, List.map_map]
      apply maxRunAux_ge_of_window i _ 5 0 0
      · intro j hj
        rw [List.getElem?_map, List.getElem?_range (by omega), Option.map_some']
        have := hw j hj
        simpa using this
      · rw [List.length_map, List.length_range]
        omega

end GomokuRules

namespace GomokuRules

/-- C1 as frozen is falsified here: on `cexC1Board` the black run of six
through (2,2) has no single legal white capturing move that leaves every
remaining contiguous segment below 5 (each of the two captures leaves five in
a row), yet `checkWin` returns false, because it removes all capturable
stones — both run ends — simultaneously. -/
theorem claim_C1_counterexample :
    5 ≤ c1Line.length ∧
    (∀ j : Nat, j < 6 → getPlayerAt cexC1Board 2 ((j : Int)) = BLACK) ∧
    getPlayerAt cexC1Board 2 (-1) ≠ BLACK ∧
    getPlayerAt cexC1Board 2 6 ≠ BLACK ∧
    (0 : Int) < 10 ∧
    existsSingleBreakingCapture cexC1Board c1Line (opponentOf BLACK) = false ∧
    checkWin cexC1Board 2 2 BLACK 0 = false := by
  decide

/-- Witness for the amended C1 at a concrete unbreakable five. -/
theorem claim_C1_witness :
    checkWin witC1Board 2 2 BLACK 0 = true := by
  apply (claim_C1_amended witC1Board 2 2 BLACK 0 (by norm_num) (Or.inl rfl)
    (by decide)).mpr
  refine ⟨⟨0, 1⟩, by decide, 2, 2, ?_, by decide, by decide, by norm_num, 0,
    by norm_num, ?_⟩
  · intro j hj
    interval_cases j <;> decide
  · intro j hj
    interval_cases j <;> decide

end GomokuRules

namespace GomokuRules

theorem getPlayerAt_congr (b1 b2 : Board)
    (h : ∀ r c : Int, isOnBoard r c = true → b1 r c = b2 r c) (r c : Int) :
    getPlayerAt b1 r c = getPlayerAt b2 r c := by
  unfold getPlayerAt
  by_cases hb : isOnBoard r c = true
  · rw [if_pos hb, if_pos hb]
    exact h r c hb
  · rw [if_neg hb, if_neg hb]

theorem isEmptyCell_congr (b1 b2 : Board)
    (h : ∀ r c : Int, isOnBoard r c = true → b1 r c = b2 r c) (r c : Int) :
    isEmptyCell b1 r c = isEmptyCell b2 r c := by
  unfold isEmptyCell
  by_cases hb : isOnBoard r c = true
  · rw [hb, h r c hb]
  · rw [Bool.not_eq_true] at hb
    rw [hb, Bool.false_and, Bool.false_and]

theorem setCell_congr (b1 b2 : Board)
    (h : ∀ r c : Int, isOnBoard r c = true → b1 r c = b2 r c) (row col : Int) (v : Nat) :
    ∀ r c : Int, isOnBoard r c = true → setCell b1 row col v r c = setCell b2 row col v r c := by
  intro r c hrc
  unfold setCell
  by_cases hc : r = row ∧ c = col
  · rw [if_pos hc, if_pos hc]
  · rw [if_neg hc, if_neg hc]
    exact h r c hrc

theorem capturesInDir_congr (b1 b2 : Board)
    (h : ∀ r c : Int, isOnBoard r c = true → b1 r c = b2 r c)
    (row col : Int) (player opponent : Nat) (dir : Direction) :
    capturesInDir b1 row col player opponent dir =
      capturesInDir b2 row col player opponent dir := by
  unfold capturesInDir
  rw [getPlayerAt_congr b1 b2 h (row + dir.r) (col + dir.c),
      getPlayerAt_congr b1 b2 h (row + 2 * dir.r) (col + 2 * dir.c),
      getPlayerAt_congr b1 b2 h (row + 3 * dir.r) (col + 3 * dir.c)]

theorem checkCaptures_congr (b1 b2 : Board)
    (h : ∀ r c : Int, isOnBoard r c = true → b1 r c = b2 r c)
    (row col : Int) (player : Nat) :
    checkCaptures b1 row col player = checkCaptures b2 row col player := by
  unfold checkCaptures
  congr 1
  exact List.map_congr_left fun d _ =>
    capturesInDir_congr b1 b2 h row col player (opponentOf player) d

theorem applyMove_snd_congr (b1 b2 : Board)
    (h : ∀ r c : Int, isOnBoard r c = true → b1 r c = b2 r c)
    (row col : Int) (player : Nat) :
    (applyMove b1 row col player).2 = (applyMove b2 row col player).2 :=
  checkCaptures_congr (setCell b1 row col player) (setCell b2 row col player)
    (setCell_congr b1 b2 h row col player) row col player

theorem applyMove_fst_congr (b1 b2 : Board)
    (h : ∀ r c : Int, isOnBoard r c = true → b1 r c = b2 r c)
    (row col : Int) (player : Nat) :
    ∀ r c : Int, isOnBoard r c = true →
      (applyMove b1 row col player).1 r c = (applyMove b2 row col player).1 r c := by
  intro r c hrc
  rw [applyMove_fst_apply, applyMove_fst_apply,
      checkCaptures_congr b1 b2 h row col player]
  by_cases hm : ∃ p ∈ checkCaptures b2 row col player, p.r = r ∧ p.c = c
  · rw [if_pos hm, if_pos hm]
  · rw [if_neg hm, if_neg hm]
    exact setCell_congr b1 b2 h row col player r c hrc

theorem getLinePattern_congr (b1 b2 : Board)
    (h : ∀ r c : Int, isOnBoard r c = true → b1 r c = b2 r c)
    (row col : Int) (dir : Direction) (player : Nat) :
    getLinePattern b1 row col dir player = getLinePattern b2 row col dir player := by
  unfold getLinePattern
  exact List.map_congr_left fun j _ => by
    rw [getPlayerAt_congr b1 b2 h (row + ((j : Int) - 5) * dir.r)
        (col + ((j : Int) - 5) * dir.c)]

theorem isFreeThree_congr (b1 b2 : Board)
    (h : ∀ r c : Int, isOnBoard r c = true → b1 r c = b2 r c)
    (row col : Int) (dir : Direction) (player : Nat) :
    isFreeThree b1 row col dir player = isFreeThree b2 row col dir player := by
  unfold isFreeThree
  rw [getLinePattern_congr b1 b2 h row col dir player]

theorem checkDoubleThree_congr (b1 b2 : Board)
    (h : ∀ r c : Int, isOnBoard r c = true → b1 r c = b2 r c)
    (row col : Int) (player : Nat) :
    checkDoubleThree b1 row col player = checkDoubleThree b2 row col player := by
  unfold checkDoubleThree
  rw [List.countP_congr fun d _ => by
    rw [isFreeThree_congr b1 b2 h row col d player]]

theorem isPairSurrounded_congr (b1 b2 : Board)
    (h : ∀ r c : Int, isOnBoard r c = true → b1 r c = b2 r c)
    (p1 p2 : Point) (opponent : Nat) :
    isPairSurrounded b1 p1 p2 opponent = isPairSurrounded b2 p1 p2 opponent := by
  unfold isPairSurrounded
  rw [getPlayerAt_congr b1 b2 h (p1.r - (p2.r - p1.r)) (p1.c - (p2.c - p1.c)),
      getPlayerAt_congr b1 b2 h (p2.r + (p2.r - p1.r)) (p2.c + (p2.c - p1.c))]

theorem scanNeighborPairs_congr (b1 b2 : Board)
    (h : ∀ r c : Int, isOnBoard r c = true → b1 r c = b2 r c)
    (row col : Int) (subjectPlayer : Nat)
    (predicate : Board → Point → Point → Nat → Bool)
    (hpred : ∀ p1 p2 o, predicate b1 p1 p2 o = predicate b2 p1 p2 o) :
    scanNeighborPairs b1 row col subjectPlayer predicate =
      scanNeighborPairs b2 row col subjectPlayer predicate := by
  unfold scanNeighborPairs
  apply congrArg
  funext dir
  rw [getPlayerAt_congr b1 b2 h (row + dir.r) (col + dir.c),
      hpred ⟨row, col⟩ ⟨row + dir.r, col + dir.c⟩ (opponentOf subjectPlayer)]

theorem isSuicideMove_congr (b1 b2 : Board)
    (h : ∀ r c : Int, isOnBoard r c = true → b1 r c = b2 r c)
    (row col : Int) (player : Nat) :
    isSuicideMove b1 row col player = isSuicideMove b2 row col player :=
  scanNeighborPairs_congr b1 b2 h row col player isPairSurrounded
    (fun p1 p2 o => isPairSurrounded_congr b1 b2 h p1 p2 o)

theorem validateMove_congr (b1 b2 : Board)
    (h : ∀ r c : Int, isOnBoard r c = true → b1 r c = b2 r c)
    (row col : Int) (player : Nat) :
    validateMove b1 row col player = validateMove b2 row col player := by
  unfold validateMove validateMoveFull
  cases hbool : isOnBoard row col with
  | false => rfl
  | true =>
    simp only [Bool.not_true, Bool.false_eq_true, if_false]
    rw [h row col hbool]
    by_cases hocc : b2 row col ≠ NONE
    · rw [if_pos hocc, if_pos hocc]
    · rw [if_neg hocc, if_neg hocc]
      have hcaps := applyMove_snd_congr b1 b2 h row col player
      have hsui := isSuicideMove_congr (applyMove b1 row col player).1
        (applyMove b2 row col player).1 (applyMove_fst_congr b1 b2 h row col player)
        row col player
      have hdt := checkDoubleThree_congr (applyMove b1 row col player).1
        (applyMove b2 row col player).1 (applyMove_fst_congr b1 b2 h row col player)
        row col player
      rw [hcaps, hsui, hdt]

theorem tryCaptureAt_congr (b1 b2 : Board)
    (h : ∀ r c : Int, isOnBoard r c = true → b1 r c = b2 r c)
    (r c : Int) (opponent : Nat) :
    tryCaptureAt b1 r c opponent = tryCaptureAt b2 r c opponent := by
  unfold tryCaptureAt
  rw [isEmptyCell_congr b1 b2 h r c, validateMove_congr b1 b2 h r c opponent]

theorem isPairSandwiched_congr (b1 b2 : Board)
    (h : ∀ r c : Int, isOnBoard r c = true → b1 r c = b2 r c)
    (p1 p2 : Point) (opponent : Nat) :
    isPairSandwiched b1 p1 p2 opponent = isPairSandwiched b2 p1 p2 opponent := by
  unfold isPairSandwiched
  rw [getPlayerAt_congr b1 b2 h (p1.r - (p2.r - p1.r)) (p1.c - (p2.c - p1.c)),
      getPlayerAt_congr b1 b2 h (p2.r + (p2.r - p1.r)) (p2.c + (p2.c - p1.c)),
      tryCaptureAt_congr b1 b2 h (p2.r + (p2.r - p1.r)) (p2.c + (p2.c - p1.c)) opponent,
      tryCaptureAt_congr b1 b2 h (p1.r - (p2.r - p1.r)) (p1.c - (p2.c - p1.c)) opponent]

theorem isStoneCapturable_congr (b1 b2 : Board)
    (h : ∀ r c : Int, isOnBoard r c = true → b1 r c = b2 r c)
    (row col : Int) (opponent : Nat) :
    isStoneCapturable b1 row col opponent = isStoneCapturable b2 row col opponent :=
  scanNeighborPairs_congr b1 b2 h row col (opponentOf opponent) isPairSandwiched
    (fun p1 p2 o => isPairSandwiched_congr b1 b2 h p1 p2 o)

theorem isLineBreakableByCapture_congr (b1 b2 : Board)
    (h : ∀ r c : Int, isOnBoard r c = true → b1 r c = b2 r c)
    (line : List Point) (opponent : Nat) :
    isLineBreakableByCapture b1 line opponent =
      isLineBreakableByCapture b2 line opponent := by
  unfold isLineBreakableByCapture
  rw [List.map_congr_left fun p _ => isStoneCapturable_congr b1 b2 h p.r p.c opponent]

theorem scanDir_congr (b1 b2 : Board)
    (h : ∀ r c : Int, isOnBoard r c = true → b1 r c = b2 r c) (player : Nat) :
    ∀ (fuel : Nat) (r c : Int) (dir : Direction),
      scanDir b1 player fuel r c dir = scanDir b2 player fuel r c dir := by
  intro fuel
  induction fuel with
  | zero => intro r c dir; rfl
  | succ fuel ih =>
    intro r c dir
    unfold scanDir
    rw [getPlayerAt_congr b1 b2 h r c]
    by_cases hcond : (getPlayerAt b2 r c == player) = true
    · rw [if_pos hcond, if_pos hcond, ih (r + dir.r) (c + dir.c) dir]
    · rw [if_neg hcond, if_neg hcond]

theorem checkWin_congr (b1 b2 : Board)
    (h : ∀ r c : Int, isOnBoard r c = true → b1 r c = b2 r c)
    (row col : Int) (player : Nat) (cap : Int) :
    checkWin b1 row col player cap = checkWin b2 row col player cap := by
  unfold checkWin
  by_cases hcap : 10 ≤ cap
  · rw [if_pos hcap, if_pos hcap]
  · rw [if_neg hcap, if_neg hcap]
    apply congrArg
    funext dir
    rw [scanDir_congr b1 b2 h player 7 (row + dir.r) (col + dir.c) dir,
        scanDir_congr b1 b2 h player 7 (row - dir.r) (col - dir.c) ⟨-dir.r, -dir.c⟩,
        isLineBreakableByCapture_congr b1 b2 h _ (opponentOf player)]

/-- C10: out of bounds, `getPlayerAt` answers `NONE` and `isEmptyCell`
answers false; consequently the 11-cell `getLinePattern` window and the
`checkWin` run scan treat the board edge as a blocking boundary, and their
results never depend on out-of-range cell contents: two boards agreeing on
all in-range cells give identical results. -/
theorem claim_C10_edge_is_blocking_boundary (b1 b2 : Board)
    (h : ∀ r c : Int, isOnBoard r c = true → b1 r c = b2 r c) :
    (∀ r c : Int, isOnBoard r c = false →
      getPlayerAt b1 r c = NONE ∧ isEmptyCell b1 r c = false)
    ∧ (∀ (row col : Int) (dir : Direction) (player : Nat),
        getLinePattern b1 row col dir player = getLinePattern b2 row col dir player)
    ∧ (∀ (row col : Int) (player : Nat) (cap : Int),
        checkWin b1 row col player cap = checkWin b2 row col player cap) := by
  refine ⟨?_, ?_, ?_⟩
  · intro r c hoff
    refine ⟨getPlayerAt_off b1 r c hoff, ?_⟩
    unfold isEmptyCell
    rw [hoff, Bool.false_and]
  · intro row col dir player
    exact getLinePattern_congr b1 b2 h row col dir player
  · intro row col player cap
    exact checkWin_congr b1 b2 h row col player cap

/-- Witness for C10: an all-empty board versus a board carrying junk outside
the playing area. -/
theorem claim_C10_witness :
    (∀ r c : Int, isOnBoard r c = true → oobBoardA r c = oobBoardB r c) ∧
    getPlayerAt oobBoardA (-1) 0 = NONE ∧
    isEmptyCell oobBoardA (-1) 0 = false ∧
    getLinePattern oobBoardA 0 0 ⟨0, 1⟩ BLACK = getLinePattern oobBoardB 0 0 ⟨0, 1⟩ BLACK ∧
    checkWin oobBoardA 0 0 BLACK 0 = checkWin oobBoardB 0 0 BLACK 0 := by
  have hagree : ∀ r c : Int, isOnBoard r c = true → oobBoardA r c = oobBoardB r c := by
    intro r c hrc
    unfold oobBoardA oobBoardB
    rw [if_pos hrc]
  have hmain := claim_C10_edge_is_blocking_boundary oobBoardA oobBoardB hagree
  exact ⟨hagree, (hmain.1 (-1) 0 (by decide)).1, (hmain.1 (-1) 0 (by decide)).2,
    hmain.2.1 0 0 ⟨0, 1⟩ BLACK, hmain.2.2 0 0 BLACK 0⟩

end GomokuRules
